import Mathlib

/-!
Verification of the learning-path service of TechStack-Backend.

This file shallowly embeds the two core components of the repository
(`services/LearningService.js` together with the shared scaffolding of
`services/BaseService.js`) and proves properties about them:

* the step extractor `extractLearningSteps`, including a faithful model of the
  three JavaScript regular-expression pattern families and the plain-numbered
  fallback scan (`extractSimpleSteps`), with JavaScript backtracking and
  `RegExp.exec` advancement semantics hand-translated for these four concrete
  patterns (ASCII fragment of `\s`, case-insensitive keyword alternations);
* the progress tracker: `createLearningPath` (with `validateLearningPathData`
  and `formatLearningPathData`), the identity-resolution cascade
  `getLearningPathById`, `updateStepCompletion` (with `manageStepCompletion`),
  `addStepNotes` and `deleteLearningPath`, over an explicit document store.

Each stateful operation returns the resulting store next to its
`Except`-result, so that writes performed before a thrown error (in
particular the ownership-repair `save` inside lookup strategy 3) are visible.
Timestamps are passed in as an explicit `now : Nat` parameter.
-/

namespace TechStack

/-! ### JavaScript string primitives (ASCII fragment) -/

/-- JS `\s`, restricted to the ASCII whitespace characters
(space, tab, line feed, carriage return, vertical tab, form feed). -/
def jsIsSpace (c : Char) : Bool :=
  c == ' ' || c == '\t' || c == '\n' || c == '\r' || c == '\x0b' || c == '\x0c'

/-- The character class `[\s:-]` used by the keyword patterns. -/
def isSepClass (c : Char) : Bool :=
  jsIsSpace c || c == ':' || c == '-'

/-- JS `String.prototype.startsWith`. -/
def jsStartsWith (s searchString : String) : Bool :=
  searchString.data.isPrefixOf s.data

/-- JS `String.prototype.trim` (ASCII fragment). -/
def jsTrim (cs : List Char) : List Char :=
  ((cs.dropWhile jsIsSpace).reverse.dropWhile jsIsSpace).reverse

/-- JS `title.replace(/^\*+|\*+$/g, '')`: drop the leading and the trailing
run of asterisks. -/
def stripStars (cs : List Char) : List Char :=
  ((cs.dropWhile (fun x => x == '*')).reverse.dropWhile (fun x => x == '*')).reverse

/-- JS `title.length > 60 ? title.substring(0, 60) + '...' : title`. -/
def truncate60 (cs : List Char) : List Char :=
  if cs.length > 60 then cs.take 60 ++ String.data "..." else cs

/-- JS `String.prototype.toLowerCase` (ASCII fragment). -/
def jsToLower (cs : List Char) : List Char :=
  cs.map Char.toLower

/-- JS `String.prototype.includes`: substring containment. -/
def containsSub (hay pat : List Char) : Bool :=
  hay.tails.any (fun t => pat.isPrefixOf t)

/-- JS `a || b` for option-valued strings (the empty string is falsy). -/
def jsOrStr (a : Option (List Char)) (b : List Char) : List Char :=
  match a with
  | some s => if s.isEmpty then b else s
  | none => b

/-- JS `o || d` for optional string fields (missing and empty are falsy). -/
def jsOrD (o : Option String) (d : String) : String :=
  match o with
  | some s => if s == "" then d else s
  | none => d

/-! ### Regular-expression matchers

The extractor uses four concrete regexes (source lines 635-639 and 700):

* `P1 = /(?:^|\n)(?:Step|Phase|Part|Level|Stage)[\s:-]+(\d+|[A-Z])[\s:-]*([^\n]+)/gi`
* `P2 = /(?:^|\n)(\d+)[\.:\)\-]\s+([^\n]+)/gi`
* `P3 = /(?:^|\n)#{1,3}\s+(?:(?:Step|Phase|Part|Stage|Level)[\s:-]+)?([^\n]+)/gi`
* `Fb = /(?:^|\n)\d+\.\s+([^\n]+)/g` (the fallback scan of `extractSimpleSteps`)

Each is hand-translated into a `body` function matching at a fixed position
(after the `(?:^|\n)` anchor), with JavaScript's greedy/backtracking semantics
worked out for the concrete pattern:

* a greedy quantifier whose character set is disjoint from what follows is
  maximal-munch with no backtracking;
* `\s+`/`[\s:-]+`/`[\s:-]*` followed by `([^\n]+)` at the end of the pattern
  backtracks, when the input is exhausted, to the last still-reachable
  non-newline character of the quantifier's run (`backOne` keeps at least one
  character for `+`, `backStar` allows zero for `*`);
* in `P1`, if the `(\d+|[A-Z])` alternation consumed a maximal digit run and
  every continuation fails at end of input, `\d+` gives back its final digit,
  which then satisfies `([^\n]+)`; a single digit cannot be given up, and the
  `[A-Z]` alternative never applies at a digit, so the whole attempt fails;
* the case-insensitive keyword alternations are prefix-deterministic (no two
  keywords can match at one position), so the first matching keyword is final.

`withAnchor` implements the `(?:^|\n)` alternation (the `^` alternative is
zero-width and only available at position 0 because the `m` flag is absent;
the `\n` alternative consumes the newline into the full match).  `scanAux`
implements the `g`-flag `exec` loop: scan for the earliest match at or after
the previous match's end.  Every match consumes at least one character, so a
fuel of `length + 1` is never exhausted. -/

/-- One regex match: capture groups 1 and 2 and the full matched text. -/
structure RegexMatch where
  g1 : Option (List Char)
  g2 : Option (List Char)
  full : List Char
deriving DecidableEq

/-- Backtrack a maximal `\s+`-style run (at least one character must remain
consumed) so that a final `([^\n]+)` can match: returns the still-consumed
part of the run, the character that becomes the title, and the trailing
newlines that are given back. -/
def backOne (ws : List Char) : Option (List Char × Char × List Char) :=
  match ws.reverse.takeWhile (fun x => x == '\n'), ws.reverse.dropWhile (fun x => x == '\n') with
  | nls, c :: k :: ks => some ((k :: ks).reverse, c, nls.reverse)
  | _, _ => none

/-- Like `backOne` but for a `*` quantifier: the whole run may be given back. -/
def backStar (ws : List Char) : Option (List Char × Char × List Char) :=
  match ws.reverse.takeWhile (fun x => x == '\n'), ws.reverse.dropWhile (fun x => x == '\n') with
  | nls, c :: ks => some (ks.reverse, c, nls.reverse)
  | _, _ => none

/-- Result of matching the numbered-line core `(\d+)<sep>\s+([^\n]+)`. -/
structure NumMatch where
  g1 : List Char
  g2 : List Char
  full : List Char
  rest : List Char
deriving DecidableEq

/-- Matcher for `(\d+)<sep>\s+([^\n]+)` at a fixed position, parametrised by
the separator character class (`['.', ':', ')', '-']` for pattern family 2,
`['.']` for the fallback pattern). -/
def numMatchCore (seps : List Char) (cs : List Char) : Option NumMatch :=
  let ds := cs.takeWhile Char.isDigit
  let r1 := cs.dropWhile Char.isDigit
  if ds.isEmpty then none
  else
    match r1 with
    | [] => none
    | c :: r2 =>
      if seps.contains c then
        let ws := r2.takeWhile jsIsSpace
        let r3 := r2.dropWhile jsIsSpace
        if ws.isEmpty then none
        else
          match r3 with
          | _ :: _ =>
            let ts := r3.takeWhile (fun x => x != '\n')
            let r4 := r3.dropWhile (fun x => x != '\n')
            some ⟨ds, ts, ds ++ c :: (ws ++ ts), r4⟩
          | [] =>
            match backOne ws with
            | some (kept, tc, nls) => some ⟨ds, [tc], ds ++ c :: (kept ++ [tc]), nls⟩
            | none => none
      else none

/-- The separator class `[\.:\)\-]` of pattern family 2. -/
def p2Seps : List Char := ['.', ':', ')', '-']

/-- Pattern family 2 as a body matcher. -/
def bodyP2 (cs : List Char) : Option (RegexMatch × List Char) :=
  match numMatchCore p2Seps cs with
  | some m => some ({ g1 := some m.g1, g2 := some m.g2, full := m.full }, m.rest)
  | none => none

/-- The fallback pattern `\d+\.\s+([^\n]+)` as a body matcher (its only
capture group is irrelevant to the service, which uses the full match). -/
def bodyFb (cs : List Char) : Option (RegexMatch × List Char) :=
  match numMatchCore ['.'] cs with
  | some m => some ({ g1 := some m.g2, g2 := none, full := m.full }, m.rest)
  | none => none

/-- Case-insensitive literal match: `k` is the lower-case keyword; returns
the consumed original characters and the rest. -/
def ciDrop : List Char → List Char → Option (List Char × List Char)
  | [], cs => some ([], cs)
  | _ :: _, [] => none
  | k :: ks, c :: cs =>
    if c.toLower == k then
      match ciDrop ks cs with
      | some (m, r) => some (c :: m, r)
      | none => none
    else none

/-- Try an ordered, prefix-deterministic keyword alternation. -/
def tryKeywords : List (List Char) → List Char → Option (List Char × List Char)
  | [], _ => none
  | k :: ks, cs =>
    match ciDrop k cs with
    | some r => some r
    | none => tryKeywords ks cs

/-- Keyword order of pattern family 1: `Step|Phase|Part|Level|Stage`. -/
def kwsP1 : List (List Char) :=
  [String.data "step", String.data "phase", String.data "part",
   String.data "level", String.data "stage"]

/-- Keyword order of pattern family 3: `Step|Phase|Part|Stage|Level`. -/
def kwsP3 : List (List Char) :=
  [String.data "step", String.data "phase", String.data "part",
   String.data "stage", String.data "level"]

/-- Pattern family 1 as a body matcher:
`(?:Step|Phase|Part|Level|Stage)[\s:-]+(\d+|[A-Z])[\s:-]*([^\n]+)`
(case-insensitive, so `[A-Z]` matches any ASCII letter). -/
def bodyP1 (cs : List Char) : Option (RegexMatch × List Char) :=
  match tryKeywords kwsP1 cs with
  | none => none
  | some (kw, r1) =>
    let w1 := r1.takeWhile isSepClass
    let r2 := r1.dropWhile isSepClass
    if w1.isEmpty then none
    else
      match r2 with
      | [] => none
      | c :: r3 =>
        if c.isDigit then
          let ds := r2.takeWhile Char.isDigit
          let r2' := r2.dropWhile Char.isDigit
          let w2 := r2'.takeWhile isSepClass
          let r4 := r2'.dropWhile isSepClass
          match r4 with
          | _ :: _ =>
            let ts := r4.takeWhile (fun x => x != '\n')
            let r5 := r4.dropWhile (fun x => x != '\n')
            some ({ g1 := some ds, g2 := some ts, full := kw ++ w1 ++ ds ++ w2 ++ ts }, r5)
          | [] =>
            match backStar w2 with
            | some (kept, tc, nls) =>
              some ({ g1 := some ds, g2 := some [tc],
                      full := kw ++ w1 ++ ds ++ kept ++ [tc] }, nls)
            | none =>
              match ds.dropLast with
              | [] => none
              | d0 :: dInit =>
                some ({ g1 := some (d0 :: dInit), g2 := some [ds.getLastD '0'],
                        full := kw ++ w1 ++ ds }, w2)
        else if c.isAlpha then
          let w2 := r3.takeWhile isSepClass
          let r4 := r3.dropWhile isSepClass
          match r4 with
          | _ :: _ =>
            let ts := r4.takeWhile (fun x => x != '\n')
            let r5 := r4.dropWhile (fun x => x != '\n')
            some ({ g1 := some [c], g2 := some ts, full := kw ++ w1 ++ c :: (w2 ++ ts) }, r5)
          | [] =>
            match backStar w2 with
            | some (kept, tc, nls) =>
              some ({ g1 := some [c], g2 := some [tc],
                      full := kw ++ w1 ++ c :: (kept ++ [tc]) }, nls)
            | none => none
        else none

/-- Pattern family 3 as a body matcher:
`#{1,3}\s+(?:(?:Step|Phase|Part|Stage|Level)[\s:-]+)?([^\n]+)`.
A hash run longer than 3 fails outright (backtracking `#{1,3}` only re-exposes
hashes, which are not whitespace). -/
def bodyP3 (cs : List Char) : Option (RegexMatch × List Char) :=
  let hs := cs.takeWhile (fun x => x == '#')
  let r1 := cs.dropWhile (fun x => x == '#')
  if hs.isEmpty then none
  else if hs.length > 3 then none
  else
    let ws := r1.takeWhile jsIsSpace
    let r2 := r1.dropWhile jsIsSpace
    if ws.isEmpty then none
    else
      match r2 with
      | [] =>
        match backOne ws with
        | some (kept, tc, nls) =>
          some ({ g1 := some [tc], g2 := none, full := hs ++ kept ++ [tc] }, nls)
        | none => none
      | _ :: _ =>
        match tryKeywords kwsP3 r2 with
        | some (kw, r3) =>
          let w2 := r3.takeWhile isSepClass
          let r4 := r3.dropWhile isSepClass
          if w2.isEmpty then
            let ts := r2.takeWhile (fun x => x != '\n')
            let r5 := r2.dropWhile (fun x => x != '\n')
            some ({ g1 := some ts, g2 := none, full := hs ++ ws ++ ts }, r5)
          else
            match r4 with
            | _ :: _ =>
              let ts := r4.takeWhile (fun x => x != '\n')
              let r5 := r4.dropWhile (fun x => x != '\n')
              some ({ g1 := some ts, g2 := none, full := hs ++ ws ++ kw ++ w2 ++ ts }, r5)
            | [] =>
              match backOne w2 with
              | some (kept, tc, nls) =>
                some ({ g1 := some [tc], g2 := none,
                        full := hs ++ ws ++ kw ++ kept ++ [tc] }, nls)
              | none =>
                let ts := r2.takeWhile (fun x => x != '\n')
                let r5 := r2.dropWhile (fun x => x != '\n')
                some ({ g1 := some ts, g2 := none, full := hs ++ ws ++ ts }, r5)
        | none =>
          let ts := r2.takeWhile (fun x => x != '\n')
          let r5 := r2.dropWhile (fun x => x != '\n')
          some ({ g1 := some ts, g2 := none, full := hs ++ ws ++ ts }, r5)

/-- The `(?:^|\n)` anchor: the zero-width `^` alternative (only at position 0,
since the `m` flag is absent) is tried first, then the `\n` alternative, which
consumes the newline into the full match. -/
def withAnchor (body : List Char → Option (RegexMatch × List Char))
    (cs : List Char) (isStart : Bool) : Option (RegexMatch × List Char) :=
  match (if isStart then body cs else none) with
  | some r => some r
  | none =>
    match cs with
    | '\n' :: t =>
      match body t with
      | some (m, rest) => some ({ m with full := '\n' :: m.full }, rest)
      | none => none
    | _ => none

/-- The `g`-flag `exec` loop: find the earliest match at or after the current
position, emit it, continue after its end.  Every successful match consumes at
least one character, so the fuel `length + 1` used by `execPattern` is never
exhausted. -/
def scanAux (body : List Char → Option (RegexMatch × List Char)) :
    Nat → List Char → Bool → List RegexMatch
  | 0, _, _ => []
  | Nat.succ fuel, cs, isStart =>
    match withAnchor body cs isStart with
    | some (m, rest) => m :: scanAux body fuel rest false
    | none =>
      match cs with
      | [] => []
      | _ :: t => scanAux body fuel t false

/-- All matches of a pattern over a text, in document order. -/
def execPattern (body : List Char → Option (RegexMatch × List Char))
    (text : String) : List RegexMatch :=
  scanAux body (text.data.length + 1) text.data true

def execP1 (text : String) : List RegexMatch := execPattern bodyP1 text

def execP2 (text : String) : List RegexMatch := execPattern bodyP2 text

def execP3 (text : String) : List RegexMatch := execPattern bodyP3 text

def execFb (text : String) : List RegexMatch := execPattern bodyFb text

/-! ### The step extractor -/

/-- One extracted step, as produced by `extractLearningSteps`. -/
structure ExtractedStep where
  id : String
  title : String
  category : String
deriving DecidableEq

/-- `determineCategoryFromTitle` (source lines 678-691): case-insensitive
substring search with precedence prerequisite, practice, advanced, core. -/
def determineCategoryFromTitle (title : String) : String :=
  let lowerTitle := jsToLower title.data
  if containsSub lowerTitle (String.data "prerequisite")
      || containsSub lowerTitle (String.data "before")
      || containsSub lowerTitle (String.data "foundation") then "prerequisite"
  else if containsSub lowerTitle (String.data "practice")
      || containsSub lowerTitle (String.data "project")
      || containsSub lowerTitle (String.data "exercise") then "practice"
  else if containsSub lowerTitle (String.data "advanced")
      || containsSub lowerTitle (String.data "expert")
      || containsSub lowerTitle (String.data "complex") then "advanced"
  else "core"

/-- The body of the `while` loop of `extractLearningSteps` for one match,
with `n` the already-incremented `stepCount`:
`rawTitle = match[2] || match[1] || 'Step <n>'`, trim, strip asterisks,
categorise (from the untruncated title), truncate to 60 characters. -/
def mkStep (n : Nat) (m : RegexMatch) : ExtractedStep :=
  let rawTitle := jsOrStr m.g2 (jsOrStr m.g1 (String.data ("Step " ++ Nat.repr n)))
  let title := stripStars (jsTrim rawTitle)
  { id := "step-" ++ Nat.repr n,
    title := String.mk (truncate60 title),
    category := determineCategoryFromTitle (String.mk title) }

/-- The `while ((match = regex.exec(text)) !== null)` loop: one step per match,
`stepCount` incremented before use (so ids are 1-based). -/
def buildSteps (n : Nat) : List RegexMatch → List ExtractedStep
  | [] => []
  | m :: ms => mkStep (n + 1) m :: buildSteps (n + 1) ms

/-- JS `item.replace(/^\d+\.\s+/, '')`: drop an anchored leading
`digits . whitespace` prefix when present, otherwise leave unchanged. -/
def stripLeadingNumber (cs : List Char) : List Char :=
  let ds := cs.takeWhile Char.isDigit
  let r1 := cs.dropWhile Char.isDigit
  if ds.isEmpty then cs
  else
    match r1 with
    | '.' :: r2 =>
      let ws := r2.takeWhile jsIsSpace
      let r3 := r2.dropWhile jsIsSpace
      if ws.isEmpty then cs else r3
    | _ => cs

/-- The `forEach` body of `extractSimpleSteps`: the items are the full match
strings (which, except possibly for the first, begin with the consumed
newline, so the anchored replace leaves them unchanged there and the title
keeps its `<n>. ` prefix after trimming — faithful to the source). -/
def buildItems (idx : Nat) : List RegexMatch → List ExtractedStep
  | [] => []
  | m :: ms =>
    let title := jsTrim (stripLeadingNumber m.full)
    { id := "item-" ++ Nat.repr (idx + 1),
      title := String.mk (truncate60 title),
      category := "core" } :: buildItems (idx + 1) ms

/-- `extractSimpleSteps` (source lines 699-711): plain numbered lines, only
used when at least 3 are found.  Returns the steps it would append. -/
def extractSimpleSteps (text : String) : List ExtractedStep :=
  let numberedItems := execFb text
  if numberedItems.length ≥ 3 then buildItems 0 numberedItems else []

/-- The `for (const pattern of stepPatterns)` loop with its
`if (steps.length > 0) break`, unrolled over the three pattern families.
`stepCount` is shared across iterations, but a family that contributed no
match leaves it at 0, so each family numbers from 1. -/
def cascade (text : String) : List ExtractedStep :=
  let s1 := buildSteps 0 (execP1 text)
  if s1.isEmpty then
    let s2 := buildSteps 0 (execP2 text)
    if s2.isEmpty then buildSteps 0 (execP3 text) else s2
  else s1

/-- `extractLearningSteps` (source lines 628-670) on a string input
(`if (!text) return []` — the empty string is falsy). -/
def extractLearningSteps (text : String) : List ExtractedStep :=
  if text == "" then []
  else
    let steps := cascade text
    if steps.isEmpty then extractSimpleSteps text else steps

/-- `extractLearningSteps` including the null/undefined input case. -/
def extractLearningStepsOpt : Option String → List ExtractedStep
  | none => []
  | some t => extractLearningSteps t

/-! ### The progress tracker

`LearningService extends BaseService` (source lines 369-734), over a document
store modelled as a list of aggregates.  `findOne { _id, userId }` and
`findById` return the first matching document; `saveDoc` writes a document
back over every stored document with the same id (MongoDB ids are unique, so
uniqueness shows up as a `Nodup` hypothesis where it matters);
`deleteOne { _id }` removes the first matching document.

Every operation returns the store as it is persisted when the operation
finishes — also on a thrown error, since the ownership-repair `save` of
lookup strategy 3 happens before `updateStepCompletion`/`addStepNotes`
look for the step. -/

/-- One step of a learning path (sub-document of the mongoose model). -/
structure Step where
  stepId : String
  title : String
  completed : Bool
  completedAt : Option Nat
  category : String
  notes : Option String
deriving DecidableEq

/-- A learning-path aggregate (the `LearningProgress` document). -/
structure LearningPath where
  id : String
  userId : String
  chatId : String
  title : String
  description : String
  difficulty : String
  estimatedTimeToComplete : String
  steps : List Step
  totalSteps : Nat
  completedSteps : Nat
  isCompleted : Bool
  createdAt : Nat
  updatedAt : Nat
  lastAccessedAt : Nat
deriving DecidableEq

/-- The document store. -/
abbrev Store := List LearningPath

/-- `LearningProgress.findOne({ _id: progressId, userId })`. -/
def findOne (st : Store) (progressId userId : String) : Option LearningPath :=
  st.find? (fun p => p.id == progressId && p.userId == userId)

/-- `LearningProgress.findById(progressId)`. -/
def findById (st : Store) (progressId : String) : Option LearningPath :=
  st.find? (fun p => p.id == progressId)

/-- `document.save()`: write the document back under its id. -/
def saveDoc (st : Store) (p : LearningPath) : Store :=
  st.map (fun q => if q.id == p.id then p else q)

/-- The error taxonomy of the service:
`'Missing required fields for learning path'` (ValidationError),
`'Learning path not found'` / `'Item not found'` (NotFoundError),
`'Step not found in learning path'` (StepNotFoundError). -/
inductive ServiceError where
  | validation
  | notFound
  | stepNotFound
deriving DecidableEq

/-- `getLearningPathById` (source lines 414-461): the identity-resolution
cascade.  Strategy 1: strict match on both id and userId.  Strategy 2: if
`userId` is truthy and starts with `"session:"`, find by id alone.
Strategy 3: find by id alone; on success with truthy `userId`, overwrite the
stored `userId` and save immediately. -/
def getLearningPathById (st : Store) (progressId userId : String) :
    Except ServiceError LearningPath × Store :=
  match findOne st progressId userId with
  | some p => (.ok p, st)
  | none =>
    match (if userId != "" && jsStartsWith userId "session:"
           then findById st progressId else none) with
    | some p => (.ok p, st)
    | none =>
      match findById st progressId with
      | some p =>
        if userId != "" then
          let p' := { p with userId := userId }
          (.ok p', saveDoc st p')
        else (.ok p, st)
      | none => (.error .notFound, st)

/-- Input shape of one step handed to `createLearningPath`
(`{ id, title, category? }`, as produced by the extractor). -/
structure StepInput where
  id : String
  title : String
  category : Option String
deriving DecidableEq

/-- Input of `createLearningPath`.  A missing or empty string field is falsy
in the JS `!userId || !chatId || !title` checks, so both are modelled as
`""`; a missing `steps` field is `none` (a present list always passes the
`Array.isArray` check). -/
structure PathData where
  userId : String
  chatId : String
  title : String
  steps : Option (List StepInput)
  description : Option String
  difficulty : Option String
  estimatedTimeToComplete : Option String
deriving DecidableEq

/-- `validateLearningPathData` (source lines 489-495): `true` means the
`'Missing required fields for learning path'` error is thrown.  Note the
check is `!steps || !Array.isArray(steps)` — an empty array is truthy and
passes. -/
def validateLearningPathData (d : PathData) : Bool :=
  d.userId == "" || d.chatId == "" || d.title == "" || d.steps.isNone

/-- The mongoose schema default of the `isCompleted` field, which
`formatLearningPathData` does not set.  From the `ProgressModel` schema in
the sources (`learningProgressSchema`, `isCompleted: { type: Boolean,
default: false }`); per the same schema, `completedAt` and `notes` declare
no default and are absent on new steps. -/
def schemaDefaultIsCompleted : Bool := false

/-- `formatLearningPathData` (source lines 503-525).  The store assigns the
fresh document id, passed here as `newId`; `now` is the shared `new Date()`
instant. -/
def formatLearningPathData (d : PathData) (newId : String) (now : Nat) : LearningPath :=
  { id := newId,
    userId := d.userId,
    chatId := d.chatId,
    title := d.title,
    steps := (d.steps.getD []).map (fun s =>
      { stepId := s.id, title := s.title, completed := false,
        category := jsOrD s.category "core",
        completedAt := none, notes := none }),
    totalSteps := (d.steps.getD []).length,
    completedSteps := 0,
    isCompleted := schemaDefaultIsCompleted,
    description := jsOrD d.description "",
    difficulty := jsOrD d.difficulty "intermediate",
    estimatedTimeToComplete := jsOrD d.estimatedTimeToComplete "",
    createdAt := now,
    updatedAt := now,
    lastAccessedAt := now }

/-- `createLearningPath` (source lines 468-482): validate, format, then
`BaseService.create` (insert the new document). -/
def createLearningPath (st : Store) (d : PathData) (newId : String) (now : Nat) :
    Except ServiceError LearningPath × Store :=
  if validateLearningPathData d then (.error .validation, st)
  else
    let lp := formatLearningPathData d newId now
    (.ok lp, st ++ [lp])

/-- `manageStepCompletion` (source lines 569-586): flip the step's completed
flag, set or clear `completedAt`, adjust `completedSteps` by one only when
the value changed (`Math.max(0, x - 1)` is truncated subtraction), recompute
`isCompleted`.  The index is always in range at the call site (guarded by
`findIndex !== -1`); out of range the path is returned unchanged. -/
def manageStepCompletion (lp : LearningPath) (stepIndex : Nat) (completed : Bool)
    (now : Nat) : LearningPath :=
  match lp.steps[stepIndex]? with
  | none => lp
  | some step =>
    let wasCompleted := step.completed
    let step' :=
      if completed && !wasCompleted then
        { step with completed := completed, completedAt := some now }
      else if !completed && wasCompleted then
        { step with completed := completed, completedAt := none }
      else
        { step with completed := completed }
    let cs :=
      if completed && !wasCompleted then lp.completedSteps + 1
      else if !completed && wasCompleted then lp.completedSteps - 1
      else lp.completedSteps
    { lp with
      steps := lp.steps.set stepIndex step',
      completedSteps := cs,
      isCompleted := cs == lp.totalSteps }

/-- `updateStepCompletion` (source lines 535-560): resolve via the cascade
(whose repair write is already persisted), find the step by `stepId`
(`StepNotFoundError` if absent), update completion, refresh timestamps,
save. -/
def updateStepCompletion (st : Store) (progressId stepId : String)
    (completed : Bool) (userId : String) (now : Nat) :
    Except ServiceError LearningPath × Store :=
  match getLearningPathById st progressId userId with
  | (.error e, st1) => (.error e, st1)
  | (.ok learningPath, st1) =>
    match learningPath.steps.findIdx? (fun s => s.stepId == stepId) with
    | none => (.error .stepNotFound, st1)
    | some stepIndex =>
      let lp1 := manageStepCompletion learningPath stepIndex completed now
      let lp2 := { lp1 with updatedAt := now, lastAccessedAt := now }
      (.ok lp2, saveDoc st1 lp2)

/-- `addStepNotes` (source lines 596-621): resolve via the cascade, find the
step (`StepNotFoundError` if absent), overwrite its notes, refresh
timestamps, save. -/
def addStepNotes (st : Store) (progressId stepId notes userId : String)
    (now : Nat) : Except ServiceError LearningPath × Store :=
  match getLearningPathById st progressId userId with
  | (.error e, st1) => (.error e, st1)
  | (.ok learningPath, st1) =>
    match learningPath.steps.findIdx? (fun s => s.stepId == stepId) with
    | none => (.error .stepNotFound, st1)
    | some stepIndex =>
      let steps' :=
        match learningPath.steps[stepIndex]? with
        | some s => learningPath.steps.set stepIndex { s with notes := some notes }
        | none => learningPath.steps
      let lp2 := { learningPath with
        steps := steps', updatedAt := now, lastAccessedAt := now }
      (.ok lp2, saveDoc st1 lp2)

/-- `deleteLearningPath` (source lines 719-730): resolve via the cascade to
authorise, then `BaseService.delete` (`deleteOne({ _id })`, throwing
`'Item not found'` when nothing was deleted). -/
def deleteLearningPath (st : Store) (progressId userId : String) :
    Except ServiceError String × Store :=
  match getLearningPathById st progressId userId with
  | (.error e, st1) => (.error e, st1)
  | (.ok _, st1) =>
    if st1.any (fun p => p.id == progressId) then
      (.ok progressId, st1.eraseP (fun p => p.id == progressId))
    else (.error .notFound, st1)

/-! ### Statement-side vocabulary -/

/-- The aggregate invariant of the data model: `completedSteps` counts the
completed steps, and `isCompleted` holds exactly when every step is counted. -/
def pathInvariant (p : LearningPath) : Prop :=
  p.completedSteps = (p.steps.filter (fun s => s.completed)).length ∧
  (p.isCompleted = true ↔ p.completedSteps = p.totalSteps)

/-- One mutating operation on the store, for reasoning about arbitrary
operation sequences. -/
inductive PathOp where
  | toggle (progressId userId stepId : String) (completed : Bool) (now : Nat)
  | annotate (progressId userId stepId notes : String) (now : Nat)

/-- The store persisted after one operation (errors included, since writes
performed before a thrown error are persisted). -/
def applyOp (st : Store) : PathOp → Store
  | .toggle pid uid sid c now => (updateStepCompletion st pid sid c uid now).2
  | .annotate pid uid sid notes now => (addStepNotes st pid sid notes uid now).2

/-- The store persisted after a sequence of operations. -/
def applyOps (st : Store) : List PathOp → Store
  | [] => st
  | op :: ops => applyOps (applyOp st op) ops

/-- Forget the ownership field, to state that a store mutation touches at
most `userId`. -/
def stripOwner (p : LearningPath) : LearningPath :=
  { p with userId := "" }

/-- Does any of the keywords occur (case-insensitively) in the title? -/
def titleHasAny (title : String) (kws : List String) : Bool :=
  kws.any (fun k => containsSub (jsToLower title.data) (String.data k))

/-- Decimal value of a digit character. -/
def decDigit (c : Char) : Nat := c.toNat - 48

/-- Decimal value of a digit string, folded onto the accumulator `a`
(used to invert `Nat.repr`). -/
def decVal (a : Nat) (cs : List Char) : Nat :=
  cs.foldl (fun x c => x * 10 + decDigit c) a

/-! ### Concrete sample data for witnesses and counterexamples -/

/-- A sample stored step. -/
def sampleStep : Step :=
  { stepId := "s1", title := "Learn", completed := false, completedAt := none,
    category := "core", notes := none }

/-- A sample stored aggregate owned by `"userA"`. -/
def samplePath : LearningPath :=
  { id := "p1", userId := "userA", chatId := "c1", title := "Path",
    description := "", difficulty := "intermediate", estimatedTimeToComplete := "",
    steps := [sampleStep], totalSteps := 1, completedSteps := 0,
    isCompleted := false, createdAt := 0, updatedAt := 0, lastAccessedAt := 0 }

/-- Creation input whose `steps` field is present but empty. -/
def emptyStepsData : PathData :=
  { userId := "u1", chatId := "c1", title := "T", steps := some [],
    description := none, difficulty := none, estimatedTimeToComplete := none }

/-- Creation input with two extractor-shaped steps. -/
def twoStepsData : PathData :=
  { userId := "u1", chatId := "c1", title := "T",
    steps := some [{ id := "step-1", title := "A", category := none },
                   { id := "step-2", title := "B", category := some "practice" }],
    description := none, difficulty := none, estimatedTimeToComplete := none }

/-! ## Store lookup lemmas -/

theorem findOne_mem {st : Store} {pid uid : String} {p : LearningPath}
    (h : findOne st pid uid = some p) : p ∈ st ∧ p.id = pid ∧ p.userId = uid := by
  refine ⟨List.mem_of_find?_eq_some h, ?_, ?_⟩ <;>
    have hp := List.find?_some h <;>
    simp only [Bool.and_eq_true, beq_iff_eq] at hp
  · exact hp.1
  · exact hp.2

theorem findById_mem {st : Store} {pid : String} {p : LearningPath}
    (h : findById st pid = some p) : p ∈ st ∧ p.id = pid := by
  refine ⟨List.mem_of_find?_eq_some h, ?_⟩
  have hp := List.find?_some h
  simpa using hp

theorem findById_eq_none_iff {st : Store} {pid : String} :
    findById st pid = none ↔ ¬ ∃ p ∈ st, p.id = pid := by
  unfold findById
  rw [List.find?_eq_none]
  simp

theorem findById_isSome_of_mem {st : Store} {pid : String} {p : LearningPath}
    (hp : p ∈ st) (hid : p.id = pid) : ∃ q, findById st pid = some q := by
  rcases hq : findById st pid with _ | q
  · rw [findById_eq_none_iff] at hq
    exact absurd ⟨p, hp, hid⟩ hq
  · exact ⟨q, rfl⟩

theorem mem_saveDoc_elim {st : Store} {x q : LearningPath}
    (h : q ∈ saveDoc st x) : q ∈ st ∨ q = x := by
  unfold saveDoc at h
  rcases List.mem_map.mp h with ⟨r, hr, hrq⟩
  by_cases hid : (r.id == x.id) = true
  · right; rw [hid] at hrq; simp at hrq; exact hrq.symm
  · left
    rw [if_neg hid] at hrq
    exact hrq ▸ hr

theorem saveDoc_mem_self {st : Store} {x q : LearningPath}
    (hq : q ∈ st) (hid : q.id = x.id) : x ∈ saveDoc st x := by
  unfold saveDoc
  exact List.mem_map.mpr ⟨q, hq, by simp [hid]⟩

theorem saveDoc_ids (st : Store) (x : LearningPath) :
    (saveDoc st x).map (fun p => p.id) = st.map (fun p => p.id) := by
  unfold saveDoc
  rw [List.map_map]
  refine List.map_congr_left (fun q _ => ?_)
  by_cases hid : q.id = x.id
  · simp [Function.comp_apply, hid]
  · simp [Function.comp_apply, hid]

/-! ## The identity-resolution cascade -/

/-- Exhaustive case analysis of `getLearningPathById`: either it succeeds —
returning a path with the requested id that is in the resulting store, where
the store is untouched (strategies 1, 2 and the empty-caller tail of 3) or is
the immediate persistence of the ownership rewrite (strategy 3 with a truthy
caller) — or no stored path has the requested id and it fails with
`notFound`, untouched. -/
theorem locate_cases_elim (st : Store) (pid uid : String) :
    (∃ lp st1, getLearningPathById st pid uid = (.ok lp, st1) ∧ lp.id = pid ∧
      lp ∈ st1 ∧
      ((st1 = st ∧ lp ∈ st) ∨
       (∃ p, findById st pid = some p ∧ uid ≠ "" ∧ lp = { p with userId := uid } ∧
         st1 = saveDoc st lp))) ∨
    (getLearningPathById st pid uid = (.error .notFound, st) ∧ findById st pid = none) := by
  unfold getLearningPathById
  cases h1 : findOne st pid uid with
  | some p =>
    obtain ⟨hm, hid, -⟩ := findOne_mem h1
    exact .inl ⟨p, st, rfl, hid, hm, .inl ⟨rfl, hm⟩⟩
  | none =>
    cases hc : (uid != "" && jsStartsWith uid "session:") with
    | true =>
      cases h2 : findById st pid with
      | some p =>
        obtain ⟨hm, hid⟩ := findById_mem h2
        exact .inl ⟨p, st, rfl, hid, hm, .inl ⟨rfl, hm⟩⟩
      | none => exact .inr ⟨rfl, rfl⟩
    | false =>
      cases h2 : findById st pid with
      | some p =>
        obtain ⟨hm, hid⟩ := findById_mem h2
        cases hu : (uid != "") with
        | true =>
          refine .inl ⟨{ p with userId := uid }, saveDoc st { p with userId := uid },
            rfl, hid, ?_, .inr ⟨p, rfl, by simpa using hu, rfl, rfl⟩⟩
          exact saveDoc_mem_self hm (by simpa using hid)
        | false =>
          exact .inl ⟨p, st, rfl, hid, hm, .inl ⟨rfl, hm⟩⟩
      | none => exact .inr ⟨rfl, rfl⟩

theorem jsStartsWith_session_ne_empty {uid : String}
    (h : jsStartsWith uid "session:" = true) : uid ≠ "" := by
  intro he
  rw [he] at h
  exact absurd h (by decide)

/-- C10: for every `pathId` and every `callerUserId` (including an empty
one), `locate`, `toggleStep`, `annotateStep` and `delete` raise
`NotFoundError` exactly when no stored path has that id; an ownership
mismatch alone never makes any of them fail. -/
theorem resolution_iff_exists (st : Store) (progressId userId stepId notes : String)
    (completed : Bool) (now : Nat) :
    ((getLearningPathById st progressId userId).1 = .error .notFound ↔
      ¬ ∃ p ∈ st, p.id = progressId)
    ∧ ((updateStepCompletion st progressId stepId completed userId now).1 = .error .notFound ↔
      ¬ ∃ p ∈ st, p.id = progressId)
    ∧ ((addStepNotes st progressId stepId notes userId now).1 = .error .notFound ↔
      ¬ ∃ p ∈ st, p.id = progressId)
    ∧ ((deleteLearningPath st progressId userId).1 = .error .notFound ↔
      ¬ ∃ p ∈ st, p.id = progressId) := by
  rcases locate_cases_elim st progressId userId with
    ⟨lp, st1, heq, hid, hmem, hcase⟩ | ⟨heq, hnone⟩
  · have hex : ∃ p ∈ st, p.id = progressId := by
      rcases hcase with ⟨rfl, hm⟩ | ⟨p, hfp, -, -, -⟩
      · exact ⟨lp, hm, hid⟩
      · obtain ⟨hm, hid'⟩ := findById_mem hfp
        exact ⟨p, hm, hid'⟩
    have hnn : ¬ ¬ ∃ p ∈ st, p.id = progressId := not_not_intro hex
    have hany : st1.any (fun p => p.id == progressId) = true :=
      List.any_eq_true.mpr ⟨lp, hmem, by simp [hid]⟩
    refine ⟨?_, ?_, ?_, ?_⟩
    · rw [heq]
      exact iff_of_false (by simp) hnn
    · refine iff_of_false ?_ hnn
      unfold updateStepCompletion
      rw [heq]
      cases hidx : lp.steps.findIdx? (fun s => s.stepId == stepId) <;> simp [hidx]
    · refine iff_of_false ?_ hnn
      unfold addStepNotes
      rw [heq]
      cases hidx : lp.steps.findIdx? (fun s => s.stepId == stepId) <;> simp [hidx]
    · refine iff_of_false ?_ hnn
      unfold deleteLearningPath
      rw [heq]
      simp [hany]
  · have hnex : ¬ ∃ p ∈ st, p.id = progressId := findById_eq_none_iff.mp hnone
    refine ⟨?_, ?_, ?_, ?_⟩
    · rw [heq]
      exact iff_of_true rfl hnex
    · refine iff_of_true ?_ hnex
      unfold updateStepCompletion
      rw [heq]
    · refine iff_of_true ?_ hnex
      unfold addStepNotes
      rw [heq]
    · refine iff_of_true ?_ hnex
      unfold deleteLearningPath
      rw [heq]

/-- C2: the lookup cascade tries its three strategies in strict order:
strict match on id and owner (no write); session-tolerant lookup by id alone,
only for callers starting with `"session:"` (no write); unconditional lookup
by id alone, which on success with a non-empty caller immediately persists
the caller as the new stored owner. -/
theorem locate_cascade_spec (st : Store) (pid uid : String) (p : LearningPath) :
    (findOne st pid uid = some p → getLearningPathById st pid uid = (.ok p, st))
    ∧ (findOne st pid uid = none → jsStartsWith uid "session:" = true →
        findById st pid = some p → getLearningPathById st pid uid = (.ok p, st))
    ∧ (findOne st pid uid = none → jsStartsWith uid "session:" = false → uid ≠ "" →
        findById st pid = some p →
        getLearningPathById st pid uid =
          (.ok { p with userId := uid }, saveDoc st { p with userId := uid })) := by
  refine ⟨fun h1 => ?_, fun h1 h2 h3 => ?_, fun h1 h2 hu h3 => ?_⟩
  · unfold getLearningPathById
    rw [h1]
  · have hne : uid ≠ "" := jsStartsWith_session_ne_empty h2
    have hc : (uid != "" && jsStartsWith uid "session:") = true := by
      simp [h2, hne]
    unfold getLearningPathById
    rw [h1, hc, h3]
    rfl
  · have hc : (uid != "" && jsStartsWith uid "session:") = false := by
      simp [h2]
    have hu' : (uid != "") = true := by simpa using hu
    unfold getLearningPathById
    rw [h1, h3]
    simp only [h2, hu', Bool.true_and, Bool.false_eq_true, if_false, if_true]

/-- Witness for C2: for a path owned by `"userA"`, a `"session:xyz"` caller
resolves it without changing ownership, while caller `"userB"` resolves it
and persists `"userB"` as the new owner. -/
theorem locate_cascade_spec_witness :
    getLearningPathById [samplePath] "p1" "session:xyz" = (.ok samplePath, [samplePath])
    ∧ getLearningPathById [samplePath] "p1" "userB" =
        (.ok { samplePath with userId := "userB" },
         [{ samplePath with userId := "userB" }]) := by
  constructor
  · exact (locate_cascade_spec [samplePath] "p1" "session:xyz" samplePath).2.1
      (by decide) (by decide) (by decide)
  · have h := (locate_cascade_spec [samplePath] "p1" "userB" samplePath).2.2
      (by decide) (by decide) (by decide) (by decide)
    rw [h]
    rfl

/-! ## List helper lemmas -/

theorem set_self {α : Type} : ∀ (l : List α) (i : Nat) (a : α), l[i]? = some a → l.set i a = l
  | [], _, _, h => by simp at h
  | x :: t, 0, a, h => by simp at h; simp [h]
  | x :: t, i + 1, a, h => by
    simp only [List.getElem?_cons_succ] at h
    simp [List.set_cons_succ, set_self t i a h]

theorem length_filter_set {α : Type} (p : α → Bool) :
    ∀ (l : List α) (i : Nat) (a b : α), l[i]? = some b →
      ((l.set i a).filter p).length + (if p b then 1 else 0)
        = (l.filter p).length + (if p a then 1 else 0)
  | [], _, _, _, h => by simp at h
  | x :: t, 0, a, b, h => by
    simp only [List.getElem?_cons_zero, Option.some.injEq] at h
    subst h
    simp only [List.set_cons_zero, List.filter_cons]
    cases hpa : p a <;> cases hpx : p x <;> simp [hpa, hpx] <;> omega
  | x :: t, i + 1, a, b, h => by
    simp only [List.getElem?_cons_succ] at h
    have ih := length_filter_set p t i a b h
    simp only [List.set_cons_succ, List.filter_cons]
    cases hpx : p x <;> simp [hpx] <;> omega

theorem filter_length_pos {α : Type} {p : α → Bool} {l : List α} {i : Nat} {b : α}
    (h : l[i]? = some b) (hb : p b = true) : 0 < (l.filter p).length := by
  rw [List.length_pos]
  intro hnil
  have hm : b ∈ l.filter p := List.mem_filter.mpr ⟨List.getElem?_mem h, hb⟩
  rw [hnil] at hm
  exact absurd hm (List.not_mem_nil b)

theorem findIdx?_map_eq {α : Type} (p : α → Bool) :
    ∀ (l l' : List α), l.map p = l'.map p → l.findIdx? p = l'.findIdx? p
  | [], [], _ => rfl
  | [], _ :: _, h => by simp at h
  | _ :: _, [], h => by simp at h
  | x :: t, y :: t', h => by
    simp only [List.map_cons, List.cons.injEq] at h
    have ih := findIdx?_map_eq p t t' h.2
    simp only [List.findIdx?_cons, h.1, Nat.zero_add, List.findIdx?_start_succ, ih]

theorem map_set_invariant {α β : Type} (f : α → β) (l : List α) (i : Nat) (a b : α)
    (hb : l[i]? = some b) (hab : f a = f b) : (l.set i a).map f = l.map f := by
  rw [List.map_set]
  refine set_self _ _ _ ?_
  rw [List.getElem?_map, hb, hab]
  rfl

theorem step_update_eta {s : Step} {v : Bool} (h : s.completed = v) :
    { s with completed := v } = s := by
  cases s
  cases h
  rfl

/-! ## Creation -/

/-- C3 (amended): `create` fails with `ValidationError` exactly when
`userId`, `chatId` or `title` is missing/empty or `steps` is missing — a
present but empty `steps` sequence is accepted.  On success it returns an
aggregate with `totalSteps = |steps|`, `completedSteps = 0`,
`isCompleted = false` (schema default), every step's completed flag false,
and all three timestamps set to the current instant, appended to the store. -/
theorem create_validation_spec (st : Store) (d : PathData) (newId : String) (now : Nat) :
    ((createLearningPath st d newId now).1 = .error .validation ↔
      (d.userId = "" ∨ d.chatId = "" ∨ d.title = "" ∨ d.steps = none))
    ∧ (∀ l lp st', d.steps = some l →
        createLearningPath st d newId now = (.ok lp, st') →
        lp.totalSteps = l.length ∧ lp.completedSteps = 0 ∧
        lp.isCompleted = false ∧ (∀ s ∈ lp.steps, s.completed = false) ∧
        lp.createdAt = now ∧ lp.updatedAt = now ∧ lp.lastAccessedAt = now ∧
        st' = st ++ [lp]) := by
  constructor
  · unfold createLearningPath
    by_cases hv : validateLearningPathData d = true
    · rw [if_pos hv]
      simp only [validateLearningPathData, Bool.or_eq_true, beq_iff_eq,
        Option.isNone_iff_eq_none] at hv
      exact iff_of_true rfl (by tauto)
    · rw [if_neg hv]
      refine iff_of_false (by simp) ?_
      simp only [validateLearningPathData, Bool.or_eq_true, beq_iff_eq,
        Option.isNone_iff_eq_none] at hv
      tauto
  · intro l lp st' hsteps hok
    unfold createLearningPath at hok
    by_cases hv : validateLearningPathData d = true
    · rw [if_pos hv] at hok
      simp at hok
    · rw [if_neg hv] at hok
      simp only [Prod.mk.injEq, Except.ok.injEq] at hok
      obtain ⟨hlp, hst⟩ := hok
      subst hlp
      refine ⟨?_, rfl, rfl, ?_, rfl, rfl, rfl, hst.symm⟩
      · simp [formatLearningPathData, hsteps]
      · intro s hs
        simp only [formatLearningPathData, hsteps, Option.getD_some, List.mem_map] at hs
        obtain ⟨x, -, hx⟩ := hs
        rw [← hx]

/-- Witness for C3: creating from a two-step input yields
`totalSteps = 2`, `completedSteps = 0`, `isCompleted = false`. -/
theorem create_validation_spec_witness :
    (formatLearningPathData twoStepsData "p9" 5).totalSteps = 2 ∧
    (formatLearningPathData twoStepsData "p9" 5).completedSteps = 0 ∧
    (formatLearningPathData twoStepsData "p9" 5).isCompleted = false := by
  have h := (create_validation_spec [] twoStepsData "p9" 5).2
    [{ id := "step-1", title := "A", category := none },
     { id := "step-2", title := "B", category := some "practice" }]
    (formatLearningPathData twoStepsData "p9" 5)
    [formatLearningPathData twoStepsData "p9" 5]
    rfl rfl
  exact ⟨h.1, h.2.1, h.2.2.1⟩

/-- Counterexample for C3: a present but empty `steps` sequence passes
validation (`![]` is `false` in JS), so `create` succeeds where the claim
requires a `ValidationError`. -/
theorem create_accepts_empty_steps :
    createLearningPath [] emptyStepsData "p1" 0 =
      (.ok (formatLearningPathData emptyStepsData "p1" 0),
       [formatLearningPathData emptyStepsData "p1" 0]) ∧
    (createLearningPath [] emptyStepsData "p1" 0).1 ≠ .error .validation := by
  refine ⟨rfl, ?_⟩
  intro h
  simp only [createLearningPath, emptyStepsData] at h
  exact absurd h (by simp [validateLearningPathData])

/-! ## The completion-counter invariant -/

theorem pathInvariant_stripUser {p : LearningPath} (u : String)
    (h : pathInvariant p) : pathInvariant { p with userId := u } := h

theorem manageStepCompletion_invariant (lp : LearningPath) (i : Nat) (c : Bool)
    (now : Nat) (hinv : pathInvariant lp) :
    pathInvariant (manageStepCompletion lp i c now) := by
  obtain ⟨h1, h2⟩ := hinv
  unfold manageStepCompletion
  cases hstep : lp.steps[i]? with
  | none => exact ⟨h1, h2⟩
  | some step =>
    cases hc : c with
    | false =>
      cases hw : step.completed with
      | false =>
        have hk := length_filter_set (fun s => s.completed) lp.steps i
          { step with completed := false } step hstep
        refine ⟨?_, beq_iff_eq⟩
        simp [hw] at hk ⊢
        all_goals omega
      | true =>
        have hk := length_filter_set (fun s => s.completed) lp.steps i
          { step with completed := false, completedAt := none } step hstep
        refine ⟨?_, beq_iff_eq⟩
        simp [hw] at hk ⊢
        all_goals omega
    | true =>
      cases hw : step.completed with
      | false =>
        have hk := length_filter_set (fun s => s.completed) lp.steps i
          { step with completed := true, completedAt := some now } step hstep
        refine ⟨?_, beq_iff_eq⟩
        simp [hw] at hk ⊢
        all_goals omega
      | true =>
        have hk := length_filter_set (fun s => s.completed) lp.steps i
          { step with completed := true } step hstep
        refine ⟨?_, beq_iff_eq⟩
        simp [hw] at hk ⊢
        all_goals omega

theorem locate_store_invariant {st : Store} (pid uid : String)
    (hinv : ∀ p ∈ st, pathInvariant p) :
    (∀ q ∈ (getLearningPathById st pid uid).2, pathInvariant q) ∧
    (∀ lp, (getLearningPathById st pid uid).1 = .ok lp → pathInvariant lp) := by
  rcases locate_cases_elim st pid uid with ⟨lp, st1, heq, -, -, hcase⟩ | ⟨heq, -⟩
  · rw [heq]
    rcases hcase with ⟨rfl, hm⟩ | ⟨p, hfp, -, hlp, rfl⟩
    · exact ⟨hinv, fun lp' h' => by cases h'; exact hinv lp hm⟩
    · have hp : pathInvariant p := hinv p (findById_mem hfp).1
      have hlp' : pathInvariant lp := hlp ▸ pathInvariant_stripUser uid hp
      constructor
      · intro q hq
        rcases mem_saveDoc_elim hq with hq | rfl
        · exact hinv q hq
        · exact hlp'
      · intro lp' h'
        cases h'
        exact hlp'
  · rw [heq]
    exact ⟨hinv, fun lp' h' => by cases h'⟩

theorem updateStepCompletion_store_invariant {st : Store}
    (pid sid uid : String) (c : Bool) (now : Nat)
    (hinv : ∀ p ∈ st, pathInvariant p) :
    ∀ q ∈ (updateStepCompletion st pid sid c uid now).2, pathInvariant q := by
  have hloc := locate_store_invariant pid uid hinv
  unfold updateStepCompletion
  cases hres : getLearningPathById st pid uid with
  | mk r st1 =>
    have hst1 : ∀ q ∈ st1, pathInvariant q := by
      have h := hloc.1
      rwa [hres] at h
    cases r with
    | error e => exact hst1
    | ok lp =>
      have hlp : pathInvariant lp := hloc.2 lp (by rw [hres])
      dsimp only
      cases hidx : lp.steps.findIdx? (fun s => s.stepId == sid) with
      | none => exact hst1
      | some i =>
        dsimp only
        intro q hq
        rcases mem_saveDoc_elim hq with hq | rfl
        · exact hst1 q hq
        · exact manageStepCompletion_invariant lp i c now hlp

theorem addStepNotes_store_invariant {st : Store}
    (pid sid notes uid : String) (now : Nat)
    (hinv : ∀ p ∈ st, pathInvariant p) :
    ∀ q ∈ (addStepNotes st pid sid notes uid now).2, pathInvariant q := by
  have hloc := locate_store_invariant pid uid hinv
  unfold addStepNotes
  cases hres : getLearningPathById st pid uid with
  | mk r st1 =>
    have hst1 : ∀ q ∈ st1, pathInvariant q := by
      have h := hloc.1
      rwa [hres] at h
    cases r with
    | error e => exact hst1
    | ok lp =>
      have hlp : pathInvariant lp := hloc.2 lp (by rw [hres])
      dsimp only
      cases hidx : lp.steps.findIdx? (fun s => s.stepId == sid) with
      | none => exact hst1
      | some i =>
        dsimp only
        intro q hq
        obtain ⟨h1, h2⟩ := hlp
        rcases mem_saveDoc_elim hq with hq | rfl
        · exact hst1 q hq
        · cases hget : lp.steps[i]? with
          | none =>
            simp only [hget]
            exact ⟨h1, h2⟩
          | some s =>
            have hk := length_filter_set (fun x => x.completed) lp.steps i
              { s with notes := some notes } s hget
            refine ⟨?_, ?_⟩
            · simp only [hget]
              simp at hk ⊢
              all_goals omega
            · simp only [hget]
              exact h2

theorem applyOp_invariant (st : Store) (op : PathOp)
    (hinv : ∀ p ∈ st, pathInvariant p) : ∀ p ∈ applyOp st op, pathInvariant p := by
  cases op with
  | toggle pid uid sid c now =>
    exact updateStepCompletion_store_invariant pid sid uid c now hinv
  | annotate pid uid sid notes now =>
    exact addStepNotes_store_invariant pid sid notes uid now hinv

theorem applyOps_invariant :
    ∀ (ops : List PathOp) (st : Store), (∀ p ∈ st, pathInvariant p) →
      ∀ p ∈ applyOps st ops, pathInvariant p
  | [], _, h => h
  | op :: ops, st, h => applyOps_invariant ops _ (applyOp_invariant st op h)

theorem pathInvariant_format {d : PathData} {l : List StepInput}
    (newId : String) (now : Nat) (hl : d.steps = some l) (hne : l ≠ []) :
    pathInvariant (formatLearningPathData d newId now) := by
  constructor
  · have : ((formatLearningPathData d newId now).steps.filter
        (fun s => s.completed)) = [] := by
      rw [List.filter_eq_nil_iff]
      intro a ha
      simp only [formatLearningPathData, List.mem_map] at ha
      obtain ⟨x, -, hx⟩ := ha
      rw [← hx]
      simp
    rw [this]
    rfl
  · refine iff_of_false (by simp [formatLearningPathData, schemaDefaultIsCompleted]) ?_
    simp only [formatLearningPathData, hl, Option.getD_some]
    intro h0
    have : l.length = 0 := h0.symm
    rw [List.length_eq_zero] at this
    exact hne this

/-- C1 (amended): for every LearningPath created by `create` from data with a
non-empty steps sequence, and then mutated by any sequence of `toggleStep`
and `annotateStep` operations (over a store whose paths all satisfy the
invariant), after every operation each stored path satisfies
`completedSteps = count(steps, completed)` and
`isCompleted ↔ completedSteps = totalSteps`. -/
theorem completion_invariant_holds (st : Store) (d : PathData) (newId : String)
    (now : Nat) (l : List StepInput) (lp0 : LearningPath) (st0 : Store)
    (ops : List PathOp)
    (hinv : ∀ p ∈ st, pathInvariant p)
    (hl : d.steps = some l) (hne : l ≠ [])
    (hc : createLearningPath st d newId now = (.ok lp0, st0)) :
    pathInvariant lp0 ∧ ∀ p ∈ applyOps st0 ops, pathInvariant p := by
  unfold createLearningPath at hc
  by_cases hv : validateLearningPathData d = true
  · rw [if_pos hv] at hc
    simp at hc
  · rw [if_neg hv] at hc
    simp only [Prod.mk.injEq, Except.ok.injEq] at hc
    obtain ⟨hlp, hst⟩ := hc
    subst hlp
    have h0 : pathInvariant (formatLearningPathData d newId now) :=
      pathInvariant_format newId now hl hne
    refine ⟨h0, ?_⟩
    refine applyOps_invariant ops st0 ?_
    intro p hp
    rw [← hst] at hp
    rcases List.mem_append.mp hp with hp | hp
    · exact hinv p hp
    · rw [List.mem_singleton.mp hp]
      exact h0

/-- Witness for C1: a freshly created two-step path satisfies the invariant
and keeps satisfying it through a toggle. -/
theorem completion_invariant_holds_witness :
    pathInvariant (formatLearningPathData twoStepsData "p9" 5) ∧
    ∀ p ∈ applyOps [formatLearningPathData twoStepsData "p9" 5]
        [PathOp.toggle "p9" "u1" "step-1" true 7], pathInvariant p :=
  completion_invariant_holds [] twoStepsData "p9" 5
    [{ id := "step-1", title := "A", category := none },
     { id := "step-2", title := "B", category := some "practice" }]
    (formatLearningPathData twoStepsData "p9" 5)
    [formatLearningPathData twoStepsData "p9" 5]
    [PathOp.toggle "p9" "u1" "step-1" true 7]
    (by intro p hp; cases hp) rfl (by decide) rfl

/-- Counterexample for C1: `create` accepts an empty steps sequence (the
validation does not reject it), and the resulting aggregate has
`completedSteps = totalSteps = 0` but `isCompleted = false`, violating the
claimed invariant immediately after creation. -/
theorem creation_violates_completion_invariant :
    createLearningPath [] emptyStepsData "p0" 0 =
      (.ok (formatLearningPathData emptyStepsData "p0" 0),
       [formatLearningPathData emptyStepsData "p0" 0]) ∧
    (formatLearningPathData emptyStepsData "p0" 0).completedSteps =
      (formatLearningPathData emptyStepsData "p0" 0).totalSteps ∧
    ¬ pathInvariant (formatLearningPathData emptyStepsData "p0" 0) := by
  refine ⟨rfl, rfl, ?_⟩
  intro h
  have h2 := h.2.mpr rfl
  exact absurd h2 (by decide)

/-! ## Failing toggles and the persisted ownership repair -/

theorem mem_id_unique {st : Store} (hnd : (st.map (fun q => q.id)).Nodup)
    {a b : LearningPath} (ha : a ∈ st) (hb : b ∈ st) (hid : a.id = b.id) : a = b :=
  List.inj_on_of_nodup_map hnd ha hb hid

theorem stripOwner_saveDoc {st : Store} {p x : LearningPath} {u : String}
    (hnd : (st.map (fun q => q.id)).Nodup) (hp : p ∈ st)
    (hx : x = { p with userId := u }) :
    (saveDoc st x).map stripOwner = st.map stripOwner := by
  unfold saveDoc
  rw [List.map_map]
  refine List.map_congr_left fun q hq => ?_
  dsimp only [Function.comp]
  by_cases h : q.id = x.id
  · have hqp : q = p := mem_id_unique hnd hq hp (by rw [h, hx])
    rw [if_pos (beq_iff_eq.mpr h), hqp, hx]
    rfl
  · rw [if_neg (by simp [h])]

/-- C5 (amended): on a resolvable path with no step matching `stepId`,
`toggleStep` raises `StepNotFoundError` and persists no step, counter,
completion-flag or timestamp change — but the locate cascade's ownership
repair (overwriting the stored `userId` with the caller) may already have
been persisted by the failing call. -/
theorem failing_toggle_spec (st : Store) (pid uid sid : String) (v : Bool) (now : Nat)
    (lp : LearningPath) (st1 : Store)
    (hnd : (st.map (fun q => q.id)).Nodup)
    (hloc : getLearningPathById st pid uid = (.ok lp, st1))
    (hstep : lp.steps.findIdx? (fun s => s.stepId == sid) = none) :
    updateStepCompletion st pid sid v uid now = (.error .stepNotFound, st1) ∧
    st1.map stripOwner = st.map stripOwner := by
  constructor
  · unfold updateStepCompletion
    rw [hloc]
    dsimp only
    rw [hstep]
  · rcases locate_cases_elim st pid uid with ⟨lp', st1', heq, -, -, hcase⟩ | ⟨heq, -⟩
    · rw [hloc] at heq
      simp only [Prod.mk.injEq, Except.ok.injEq] at heq
      obtain ⟨hlp', hst1'⟩ := heq
      subst hlp'
      subst hst1'
      rcases hcase with ⟨rfl, -⟩ | ⟨p, hfp, -, hlp, rfl⟩
      · rfl
      · exact stripOwner_saveDoc hnd (findById_mem hfp).1 hlp
    · rw [hloc] at heq
      exact Except.noConfusion (congrArg Prod.fst heq)

/-- Witness for C5's amended statement, at a store owned by `"userA"` with a
single step `"s1"` and a failing toggle of the absent step `"s2"`. -/
theorem failing_toggle_spec_witness :
    updateStepCompletion [samplePath] "p1" "s2" true "userB" 7 =
      (.error .stepNotFound, [{ samplePath with userId := "userB" }]) ∧
    [{ samplePath with userId := "userB" }].map stripOwner =
      [samplePath].map stripOwner := by
  have h := failing_toggle_spec [samplePath] "p1" "userB" "s2" true 7
    { samplePath with userId := "userB" } [{ samplePath with userId := "userB" }]
    (by decide) rfl (by decide)
  exact h

/-- Counterexample for C5: the failing toggle of a nonexistent step by a
non-owner caller persists the ownership rewrite, so the stored aggregate is
mutated by the failing call. -/
theorem failing_toggle_mutates_ownership :
    updateStepCompletion [samplePath] "p1" "s2" true "userB" 7 =
      (.error .stepNotFound, [{ samplePath with userId := "userB" }]) ∧
    (updateStepCompletion [samplePath] "p1" "s2" true "userB" 7).2 ≠ [samplePath] := by
  refine ⟨rfl, ?_⟩
  decide

/-! ## Idempotence of toggleStep -/

theorem manage_same_value {lp : LearningPath} {i : Nat} {step : Step} {v : Bool}
    (now : Nat) (hstep : lp.steps[i]? = some step) (hsame : step.completed = v) :
    manageStepCompletion lp i v now =
      { lp with isCompleted := lp.completedSteps == lp.totalSteps } := by
  unfold manageStepCompletion
  rw [hstep]
  dsimp only
  have h1 : (v && !step.completed) = false := by rw [hsame]; cases v <;> rfl
  have h2 : (!v && step.completed) = false := by rw [hsame]; cases v <;> rfl
  simp only [h1, h2, Bool.false_eq_true, if_false]
  rw [step_update_eta hsame, set_self _ _ _ hstep]

theorem manage_id (lp : LearningPath) (i : Nat) (c : Bool) (now : Nat) :
    (manageStepCompletion lp i c now).id = lp.id := by
  unfold manageStepCompletion
  cases lp.steps[i]? <;> rfl

theorem manage_sets_value {lp : LearningPath} {i : Nat} {step : Step} (c : Bool)
    (now : Nat) (hstep : lp.steps[i]? = some step) (hlt : i < lp.steps.length) :
    ∃ step', (manageStepCompletion lp i c now).steps[i]? = some step' ∧
      step'.completed = c ∧ step'.stepId = step.stepId := by
  unfold manageStepCompletion
  rw [hstep]
  dsimp only
  refine ⟨_, List.getElem?_set_self hlt, ?_, ?_⟩
  · split
    · rfl
    · split <;> rfl
  · split
    · rfl
    · split <;> rfl

theorem manage_findIdx (lp : LearningPath) (i : Nat) (c : Bool) (now : Nat)
    (sid : String) :
    (manageStepCompletion lp i c now).steps.findIdx? (fun s => s.stepId == sid) =
      lp.steps.findIdx? (fun s => s.stepId == sid) := by
  unfold manageStepCompletion
  cases hstep : lp.steps[i]? with
  | none => rfl
  | some step =>
    dsimp only
    refine findIdx?_map_eq _ _ _ ?_
    refine map_set_invariant _ _ _ _ step hstep ?_
    dsimp only
    split
    · rfl
    · split <;> rfl

theorem update_ok_elim {st : Store} {pid sid uid : String} {v : Bool} {now : Nat}
    {lp1 : LearningPath} {st1 : Store}
    (h : updateStepCompletion st pid sid v uid now = (.ok lp1, st1)) :
    ∃ lp st1' i, getLearningPathById st pid uid = (.ok lp, st1') ∧
      lp.steps.findIdx? (fun s => s.stepId == sid) = some i ∧
      lp1 = { manageStepCompletion lp i v now with
              updatedAt := now, lastAccessedAt := now } ∧
      st1 = saveDoc st1' lp1 := by
  unfold updateStepCompletion at h
  rcases hres : getLearningPathById st pid uid with ⟨r, st1'⟩
  rw [hres] at h
  cases r with
  | error e => simp at h
  | ok lp =>
    dsimp only at h
    cases hidx : lp.steps.findIdx? (fun s => s.stepId == sid) with
    | none =>
      rw [hidx] at h
      simp at h
    | some i =>
      rw [hidx] at h
      dsimp only at h
      simp only [Prod.mk.injEq, Except.ok.injEq] at h
      obtain ⟨h1, h2⟩ := h
      subst h1
      exact ⟨lp, st1', i, rfl, hidx, rfl, h2.symm⟩

theorem locate_store_ids {st : Store} {pid uid : String} {lp : LearningPath}
    {st1 : Store} (h : getLearningPathById st pid uid = (.ok lp, st1)) :
    st1.map (fun q => q.id) = st.map (fun q => q.id) := by
  rcases locate_cases_elim st pid uid with ⟨lp', st1', heq, -, -, hcase⟩ | ⟨heq, -⟩
  · rw [h] at heq
    simp only [Prod.mk.injEq, Except.ok.injEq] at heq
    obtain ⟨-, hst⟩ := heq
    subst hst
    rcases hcase with ⟨rfl, -⟩ | ⟨p, -, -, -, rfl⟩
    · rfl
    · exact saveDoc_ids st _
  · rw [h] at heq
    simp at heq

theorem locate_ok_facts {st : Store} {pid uid : String} {lp : LearningPath}
    {st1 : Store} (h : getLearningPathById st pid uid = (.ok lp, st1)) :
    lp.id = pid ∧ lp ∈ st1 := by
  rcases locate_cases_elim st pid uid with ⟨lp', st1', heq, hid, hmem, -⟩ | ⟨heq, -⟩
  · rw [h] at heq
    simp only [Prod.mk.injEq, Except.ok.injEq] at heq
    obtain ⟨hlp, hst⟩ := heq
    subst hlp
    subst hst
    exact ⟨hid, hmem⟩
  · rw [h] at heq
    exact Except.noConfusion (congrArg Prod.fst heq)

/-- C4: `toggleStep` is idempotent in its counter effect.  Toggling a step to
its current completed value changes neither `completedSteps` nor the step
sequence (in particular the step's `completedAt`), while `updatedAt` and
`lastAccessedAt` are still refreshed; and two successive calls with the same
value leave `completedSteps` unchanged after the second call. -/
theorem toggleStep_idempotent (st : Store) (pid uid sid : String) (v : Bool)
    (now now2 : Nat) :
    (∀ lp st1 i step,
      getLearningPathById st pid uid = (.ok lp, st1) →
      lp.steps.findIdx? (fun s => s.stepId == sid) = some i →
      lp.steps[i]? = some step → step.completed = v →
      ∃ lp2, updateStepCompletion st pid sid v uid now = (.ok lp2, saveDoc st1 lp2) ∧
        lp2.completedSteps = lp.completedSteps ∧ lp2.steps = lp.steps ∧
        lp2.updatedAt = now ∧ lp2.lastAccessedAt = now)
    ∧ (∀ lp1 st1,
      (st.map (fun q => q.id)).Nodup →
      updateStepCompletion st pid sid v uid now = (.ok lp1, st1) →
      ∃ lp2 st2, updateStepCompletion st1 pid sid v uid now2 = (.ok lp2, st2) ∧
        lp2.completedSteps = lp1.completedSteps) := by
  constructor
  · intro lp st1 i step hloc hidx hstep hsame
    refine ⟨{ manageStepCompletion lp i v now with
              updatedAt := now, lastAccessedAt := now }, ?_, ?_, ?_, rfl, rfl⟩
    · unfold updateStepCompletion
      rw [hloc]
      dsimp only
      rw [hidx]
    · rw [manage_same_value now hstep hsame]
    · rw [manage_same_value now hstep hsame]
  · intro lp1 st1 hnd h1
    obtain ⟨lp, st1', i, hres, hidx, hlp1, hst1⟩ := update_ok_elim h1
    obtain ⟨hid, hmem⟩ := locate_ok_facts hres
    have hnd1' : (st1'.map (fun q => q.id)).Nodup := by
      rw [locate_store_ids hres]
      exact hnd
    obtain ⟨hlt, hpred, -⟩ := List.findIdx?_eq_some_iff_getElem.mp hidx
    have hstep0 : lp.steps[i]? = some lp.steps[i] := List.getElem?_eq_getElem hlt
    obtain ⟨step1, hget1, hcomp1, hsid1⟩ := manage_sets_value v now hstep0 hlt
    have hR1steps : lp1.steps = (manageStepCompletion lp i v now).steps := by
      rw [hlp1]
    have hRid : lp1.id = pid := by
      rw [hlp1]
      show (manageStepCompletion lp i v now).id = pid
      rw [manage_id]
      exact hid
    have hmemR : lp1 ∈ st1 := by
      rw [hst1]
      refine saveDoc_mem_self hmem ?_
      rw [hid, hRid]
    have hnd1 : (st1.map (fun q => q.id)).Nodup := by
      rw [hst1, saveDoc_ids]
      exact hnd1'
    have hfindR : lp1.steps.findIdx? (fun s => s.stepId == sid) = some i := by
      rw [hR1steps, manage_findIdx]
      exact hidx
    have hgetR : lp1.steps[i]? = some step1 := by
      rw [hR1steps]
      exact hget1
    rcases locate_cases_elim st1 pid uid with
      ⟨lpB, st2', heqB, hidB, hmemB, hcaseB⟩ | ⟨-, hnoneB⟩
    · have hBeq : lpB.steps = lp1.steps ∧ lpB.completedSteps = lp1.completedSteps := by
        rcases hcaseB with ⟨rfl, hmB⟩ | ⟨pB, hfpB, -, hlpB, rfl⟩
        · have : lpB = lp1 := mem_id_unique hnd1 hmB hmemR (hidB.trans hRid.symm)
          rw [this]
          exact ⟨rfl, rfl⟩
        · have hpB : pB = lp1 :=
            mem_id_unique hnd1 (findById_mem hfpB).1 hmemR
              ((findById_mem hfpB).2.trans hRid.symm)
          rw [hlpB, hpB]
          exact ⟨rfl, rfl⟩
      have hfindB : lpB.steps.findIdx? (fun s => s.stepId == sid) = some i := by
        rw [hBeq.1]
        exact hfindR
      have hgetB : lpB.steps[i]? = some step1 := by
        rw [hBeq.1]
        exact hgetR
      refine ⟨{ manageStepCompletion lpB i v now2 with
                updatedAt := now2, lastAccessedAt := now2 },
              saveDoc st2' { manageStepCompletion lpB i v now2 with
                             updatedAt := now2, lastAccessedAt := now2 }, ?_, ?_⟩
      · unfold updateStepCompletion
        rw [heqB]
        dsimp only
        rw [hfindB]
      · rw [manage_same_value now2 hgetB hcomp1]
        exact hBeq.2
    · exfalso
      rw [findById_eq_none_iff] at hnoneB
      exact hnoneB ⟨lp1, hmemR, hRid⟩

/-- Witness for C4: toggling step `"s1"` (currently not completed) to
`false` leaves the counter and the step list unchanged while refreshing the
timestamps. -/
theorem toggleStep_idempotent_witness :
    ∃ lp2, updateStepCompletion [samplePath] "p1" "s1" false "userA" 3 =
        (.ok lp2, saveDoc [samplePath] lp2) ∧
      lp2.completedSteps = samplePath.completedSteps ∧
      lp2.steps = samplePath.steps ∧
      lp2.updatedAt = 3 ∧ lp2.lastAccessedAt = 3 :=
  (toggleStep_idempotent [samplePath] "p1" "userA" "s1" false 3 4).1
    samplePath [samplePath] 0 sampleStep rfl (by decide) (by decide) (by decide)

/-! ## Decimal printing is injective -/

theorem decDigit_digitChar {m : Nat} (h : m < 10) : decDigit (Nat.digitChar m) = m := by
  interval_cases m <;> rfl

theorem decVal_acc : ∀ (cs : List Char) (a : Nat),
    decVal a cs = a * 10 ^ cs.length + decVal 0 cs
  | [], a => by simp [decVal]
  | c :: t, a => by
    have h1 := decVal_acc t (a * 10 + decDigit c)
    have h2 := decVal_acc t (decDigit c)
    simp only [decVal, List.foldl_cons, Nat.zero_mul, Nat.zero_add,
      List.length_cons] at h1 h2 ⊢
    rw [h1, h2]
    ring

theorem toDigitsCore_decVal : ∀ (fuel n : Nat) (acc : List Char), n < 10 ^ fuel →
    decVal 0 (Nat.toDigitsCore 10 fuel n acc) = n * 10 ^ acc.length + decVal 0 acc
  | 0, n, acc, h => by
    have h0 : n = 0 := Nat.lt_one_iff.mp (by simpa using h)
    subst h0
    simp [Nat.toDigitsCore]
  | fuel + 1, n, acc, h => by
    have hmod : decDigit (Nat.digitChar (n % 10)) = n % 10 :=
      decDigit_digitChar (Nat.mod_lt n (by norm_num))
    have hcons : ∀ ds : List Char,
        decVal 0 (Nat.digitChar (n % 10) :: ds) = (n % 10) * 10 ^ ds.length + decVal 0 ds := by
      intro ds
      have := decVal_acc ds (decDigit (Nat.digitChar (n % 10)))
      simp only [decVal, List.foldl_cons, Nat.zero_mul, Nat.zero_add] at this ⊢
      rw [this, hmod]
    simp only [Nat.toDigitsCore]
    by_cases h0 : n / 10 = 0
    · rw [if_pos h0]
      rw [hcons acc]
      have hn : n % 10 = n := by
        have := Nat.div_add_mod n 10
        omega
      rw [hn]
    · rw [if_neg h0]
      have hlt : n / 10 < 10 ^ fuel := by
        rw [Nat.div_lt_iff_lt_mul (by norm_num)]
        calc n < 10 ^ (fuel + 1) := h
          _ = 10 ^ fuel * 10 := by ring
      have ih := toDigitsCore_decVal fuel (n / 10) (Nat.digitChar (n % 10) :: acc) hlt
      rw [ih, hcons acc]
      have hdm := Nat.div_add_mod n 10
      simp only [List.length_cons]
      calc n / 10 * 10 ^ (acc.length + 1) + (n % 10 * 10 ^ acc.length + decVal 0 acc)
          = (10 * (n / 10) + n % 10) * 10 ^ acc.length + decVal 0 acc := by ring
        _ = n * 10 ^ acc.length + decVal 0 acc := by rw [hdm]

theorem decVal_repr (n : Nat) : decVal 0 (Nat.repr n).data = n := by
  have hbound : n < 10 ^ (n + 1) :=
    lt_of_lt_of_le (Nat.lt_pow_self (by norm_num) n)
      (Nat.pow_le_pow_right (by norm_num) (Nat.le_succ n))
  show decVal 0 (Nat.toDigitsCore 10 (n + 1) n []).asString.data = n
  have hdata : (Nat.toDigitsCore 10 (n + 1) n []).asString.data
      = Nat.toDigitsCore 10 (n + 1) n [] := rfl
  rw [hdata, toDigitsCore_decVal (n + 1) n [] hbound]
  simp [decVal]

theorem repr_injective : Function.Injective Nat.repr := by
  intro a b h
  have h2 := congrArg (fun s => decVal 0 s.data) h
  simpa [decVal_repr] using h2

theorem stepId_inj {m n : Nat} (h : ("step-" ++ Nat.repr m : String) = "step-" ++ Nat.repr n) :
    m = n := by
  have h2 := congrArg String.data h
  simp only [String.data_append] at h2
  exact repr_injective (String.ext (List.append_cancel_left h2))

theorem step_ne_item (x y : String) : ("step-" ++ x : String) ≠ "item-" ++ y := by
  intro h
  have h2 := congrArg String.data h
  simp only [String.data_append] at h2
  injection h2 with hh _
  exact absurd hh (by decide)

/-! ## Structure of the extractor output -/

theorem buildSteps_length : ∀ (ms : List RegexMatch) (n : Nat),
    (buildSteps n ms).length = ms.length
  | [], _ => rfl
  | _ :: ms, n => by simp [buildSteps, buildSteps_length ms (n + 1)]

theorem buildSteps_eq_nil_iff {ms : List RegexMatch} {n : Nat} :
    buildSteps n ms = [] ↔ ms = [] := by
  cases ms <;> simp [buildSteps]

theorem buildSteps_ids : ∀ (ms : List RegexMatch) (n : Nat),
    (buildSteps n ms).map (fun s => s.id)
      = (List.range ms.length).map (fun j => "step-" ++ Nat.repr (n + j + 1))
  | [], _ => rfl
  | m :: ms, n => by
    have ih := buildSteps_ids ms (n + 1)
    simp only [buildSteps, List.map_cons, List.length_cons, List.range_succ_eq_map,
      List.map_map, ih]
    refine congrArg₂ _ rfl ?_
    refine List.map_congr_left fun j _ => ?_
    simp only [Function.comp_apply]
    have : n + 1 + j + 1 = n + Nat.succ j + 1 := by omega
    rw [this]

theorem mem_buildSteps {s : ExtractedStep} :
    ∀ {ms : List RegexMatch} {n : Nat}, s ∈ buildSteps n ms →
      ∃ k m, s = mkStep k m := by
  intro ms
  induction ms with
  | nil => intro n h; cases h
  | cons m ms ih =>
    intro n h
    rcases h with _ | ⟨-, h⟩
    · exact ⟨n + 1, m, rfl⟩
    · exact ih (by assumption)

/-! ## Scan characterisation and fallback monotonicity -/

theorem withAnchor_nil_none (body : List Char → Option (RegexMatch × List Char))
    (hnil : body [] = none) (b : Bool) : withAnchor body [] b = none := by
  unfold withAnchor
  cases b <;> simp [hnil]

theorem scanAux_ne_nil_of (body : List Char → Option (RegexMatch × List Char))
    (hnil : body [] = none) :
    ∀ (fuel : Nat) (cs : List Char) (isStart : Bool) (k : Nat), k < fuel →
      (withAnchor body (cs.drop k) (if k = 0 then isStart else false)).isSome = true →
      scanAux body fuel cs isStart ≠ []
  | 0, _, _, _, hk, _ => absurd hk (Nat.not_lt_zero _)
  | fuel + 1, cs, isStart, k, hk, hsome => by
    simp only [scanAux]
    cases han : withAnchor body cs isStart with
    | some r => simp
    | none =>
      cases cs with
      | nil =>
        rw [List.drop_nil, withAnchor_nil_none body hnil] at hsome
        simp at hsome
      | cons c t =>
        cases k with
        | zero =>
          rw [List.drop_zero, if_pos rfl, han] at hsome
          simp at hsome
        | succ k' =>
          rw [List.drop_succ_cons, if_neg (Nat.succ_ne_zero k')] at hsome
          refine scanAux_ne_nil_of body hnil fuel t false k' (by omega) ?_
          rw [ite_self]
          exact hsome

theorem scanAux_match_of_ne_nil (body : List Char → Option (RegexMatch × List Char)) :
    ∀ (fuel : Nat) (cs : List Char) (isStart : Bool),
      scanAux body fuel cs isStart ≠ [] →
      ∃ k, k < fuel ∧
        (withAnchor body (cs.drop k) (if k = 0 then isStart else false)).isSome = true
  | 0, cs, isStart, h => absurd rfl h
  | fuel + 1, cs, isStart, h => by
    simp only [scanAux] at h
    cases han : withAnchor body cs isStart with
    | some r =>
      refine ⟨0, Nat.succ_pos fuel, ?_⟩
      rw [List.drop_zero, if_pos rfl, han]
      rfl
    | none =>
      rw [han] at h
      cases cs with
      | nil => exact absurd rfl h
      | cons c t =>
        obtain ⟨k, hk, hsome⟩ := scanAux_match_of_ne_nil body fuel t false h
        refine ⟨k + 1, by omega, ?_⟩
        rw [List.drop_succ_cons, if_neg (Nat.succ_ne_zero k)]
        rwa [ite_self] at hsome

theorem numMatchCore_mono {cs : List Char} {m : NumMatch}
    (h : numMatchCore ['.'] cs = some m) : numMatchCore p2Seps cs = some m := by
  unfold numMatchCore at h ⊢
  dsimp only at h ⊢
  by_cases h1 : (cs.takeWhile Char.isDigit).isEmpty = true
  · rw [if_pos h1] at h
    exact absurd h (by simp)
  · rw [if_neg h1] at h ⊢
    cases hr : cs.dropWhile Char.isDigit with
    | nil =>
      rw [hr] at h
      exact absurd h (by simp)
    | cons c r2 =>
      rw [hr] at h
      dsimp only at h ⊢
      by_cases hc : (List.contains ['.'] c) = true
      · have hc' : c = '.' := by simpa using hc
        have hc2 : (List.contains p2Seps c) = true := by
          rw [hc']
          decide
        rw [if_pos hc] at h
        rw [if_pos hc2]
        exact h
      · rw [if_neg hc] at h
        exact absurd h (by simp)

theorem bodyFb_isSome_mono {cs : List Char} (h : (bodyFb cs).isSome = true) :
    (bodyP2 cs).isSome = true := by
  unfold bodyFb at h
  unfold bodyP2
  cases hm : numMatchCore ['.'] cs with
  | none =>
    rw [hm] at h
    simp at h
  | some m =>
    rw [numMatchCore_mono hm]
    rfl

theorem withAnchor_isSome_iff (body : List Char → Option (RegexMatch × List Char))
    (cs : List Char) (isStart : Bool) :
    (withAnchor body cs isStart).isSome = true ↔
      (isStart = true ∧ (body cs).isSome = true) ∨
      (∃ t, cs = '\n' :: t ∧ (body t).isSome = true) := by
  unfold withAnchor
  constructor
  · intro h
    cases hsc : (if isStart = true then body cs else none) with
    | some r =>
      by_cases hs : isStart = true
      · rw [if_pos hs] at hsc
        exact .inl ⟨hs, by rw [hsc]; rfl⟩
      · rw [if_neg hs] at hsc
        exact absurd hsc (by simp)
    | none =>
      rw [hsc] at h
      dsimp only at h
      cases cs with
      | nil => simp at h
      | cons c t =>
        split at h
        · rename_i cs' t' heq
          injection heq with hc ht
          subst hc
          subst ht
          cases hb : body t with
          | none =>
            rw [hb] at h
            simp at h
          | some r =>
            exact .inr ⟨t, rfl, by rw [hb]; rfl⟩
        · simp at h
  · intro h
    rcases h with ⟨hs, hb⟩ | ⟨t, rfl, hb⟩
    · subst hs
      obtain ⟨r, hr⟩ := Option.isSome_iff_exists.mp hb
      rw [if_pos rfl, hr]
      rfl
    · cases hsc : (if isStart = true then body ('\n' :: t) else none) with
      | some r => simp [hsc]
      | none =>
        obtain ⟨r, hr⟩ := Option.isSome_iff_exists.mp hb
        rcases r with ⟨m, rest⟩
        simp [hsc, hr]

theorem withAnchor_isSome_mono {cs : List Char} {isStart : Bool}
    (h : (withAnchor bodyFb cs isStart).isSome = true) :
    (withAnchor bodyP2 cs isStart).isSome = true := by
  rw [withAnchor_isSome_iff] at h ⊢
  rcases h with ⟨hs, hb⟩ | ⟨t, rfl, hb⟩
  · exact .inl ⟨hs, bodyFb_isSome_mono hb⟩
  · exact .inr ⟨t, rfl, bodyFb_isSome_mono hb⟩

theorem execFb_ne_nil_mono {text : String} (h : execFb text ≠ []) :
    execP2 text ≠ [] := by
  obtain ⟨k, hk, hsome⟩ := scanAux_match_of_ne_nil bodyFb _ _ _ h
  exact scanAux_ne_nil_of bodyP2 rfl _ _ _ k hk (withAnchor_isSome_mono hsome)

/-! ## The extraction cascade -/

theorem cascade_eq_s1 {text : String} (h : execP1 text ≠ []) :
    cascade text = buildSteps 0 (execP1 text) := by
  unfold cascade
  have h1 : (buildSteps 0 (execP1 text)).isEmpty = false :=
    List.isEmpty_eq_false.mpr (by rwa [ne_eq, buildSteps_eq_nil_iff])
  rw [if_neg (by simp [h1])]

theorem cascade_eq_s2 {text : String} (h1 : execP1 text = [])
    (h2 : execP2 text ≠ []) : cascade text = buildSteps 0 (execP2 text) := by
  unfold cascade
  rw [h1]
  have h2' : (buildSteps 0 (execP2 text)).isEmpty = false :=
    List.isEmpty_eq_false.mpr (by rwa [ne_eq, buildSteps_eq_nil_iff])
  dsimp only
  rw [if_pos (show (buildSteps 0 ([] : List RegexMatch)).isEmpty = true from rfl),
      if_neg (by simp [h2'])]

theorem cascade_eq_s3 {text : String} (h1 : execP1 text = [])
    (h2 : execP2 text = []) : cascade text = buildSteps 0 (execP3 text) := by
  unfold cascade
  rw [h1, h2]
  rfl

theorem cascade_shape (text : String) : ∃ ms, cascade text = buildSteps 0 ms := by
  by_cases h1 : execP1 text = []
  · by_cases h2 : execP2 text = []
    · exact ⟨execP3 text, cascade_eq_s3 h1 h2⟩
    · exact ⟨execP2 text, cascade_eq_s2 h1 h2⟩
  · exact ⟨execP1 text, cascade_eq_s1 h1⟩

theorem cascade_empty_p2 {text : String} (h : cascade text = []) :
    execP2 text = [] := by
  by_contra hne
  by_cases h1 : execP1 text = []
  · rw [cascade_eq_s2 h1 hne] at h
    exact hne (buildSteps_eq_nil_iff.mp h)
  · rw [cascade_eq_s1 h1] at h
    exact h1 (buildSteps_eq_nil_iff.mp h)

theorem extractSimpleSteps_eq_nil {text : String} (h : execP2 text = []) :
    extractSimpleSteps text = [] := by
  have hfb : execFb text = [] := by
    by_contra hne
    exact execFb_ne_nil_mono hne h
  unfold extractSimpleSteps
  rw [hfb]
  rfl

theorem extract_eq_cascade_or_nil (text : String) :
    extractLearningSteps text = cascade text ∨ extractLearningSteps text = [] := by
  unfold extractLearningSteps
  by_cases h0 : (text == "") = true
  · rw [if_pos h0]
    exact .inr rfl
  · rw [if_neg h0]
    dsimp only
    by_cases h1 : (cascade text).isEmpty = true
    · rw [if_pos h1]
      exact .inr (extractSimpleSteps_eq_nil (cascade_empty_p2 (List.isEmpty_iff.mp h1)))
    · rw [if_neg h1]
      exact .inl rfl

theorem extract_eq_cascade {text : String} (h : cascade text ≠ []) :
    extractLearningSteps text = cascade text := by
  unfold extractLearningSteps
  by_cases h0 : (text == "") = true
  · exfalso
    have h00 : text = "" := by simpa using h0
    subst h00
    exact h rfl
  · rw [if_neg h0]
    dsimp only
    have h1 : (cascade text).isEmpty = false := List.isEmpty_eq_false.mpr h
    rw [if_neg (by simp [h1])]

/-- C8: extraction never fails.  Null and empty input yield an empty
sequence, and any text in which none of the three pattern families matches
and fewer than 3 plain numbered lines occur also yields an empty sequence
rather than raising. -/
theorem extract_total_spec :
    extractLearningStepsOpt none = [] ∧ extractLearningSteps "" = [] ∧
    ∀ text : String, execP1 text = [] → execP2 text = [] → execP3 text = [] →
      (execFb text).length < 3 → extractLearningSteps text = [] := by
  refine ⟨rfl, rfl, ?_⟩
  intro text h1 h2 h3 hfb
  unfold extractLearningSteps
  by_cases h0 : (text == "") = true
  · rw [if_pos h0]
  · rw [if_neg h0]
    dsimp only
    have hc : cascade text = [] := by
      rw [cascade_eq_s3 h1 h2, h3]
      rfl
    rw [hc]
    simp only [List.isEmpty_nil, if_true]
    unfold extractSimpleSteps
    rw [if_neg (by omega)]

/-- Witness for C8: prose without structural markers extracts to nothing. -/
theorem extract_total_spec_witness :
    extractLearningSteps "just some prose without structure" = [] :=
  extract_total_spec.2.2 "just some prose without structure"
    (by decide) (by decide) (by decide) (by decide)

/-- C9: the plain-numbered fallback branch is productively unreachable —
whenever pattern family 2 has no match the fallback scan produces nothing
(every fallback match is also a family-2 match) — so every step ever
returned by `extract` has an id of the form `step-<n>` and never
`item-<n>`. -/
theorem fallback_unreachable :
    (∀ text : String, execP2 text = [] → extractSimpleSteps text = []) ∧
    (∀ (text : String) (s : ExtractedStep), s ∈ extractLearningSteps text →
      (∃ n, s.id = "step-" ++ Nat.repr n) ∧ ∀ m, s.id ≠ "item-" ++ Nat.repr m) := by
  constructor
  · intro text h
    exact extractSimpleSteps_eq_nil h
  · intro text s hs
    rcases extract_eq_cascade_or_nil text with heq | heq
    · rw [heq] at hs
      obtain ⟨ms, hms⟩ := cascade_shape text
      rw [hms] at hs
      obtain ⟨k, m, rfl⟩ := mem_buildSteps hs
      exact ⟨⟨k, rfl⟩, fun m' => step_ne_item _ _⟩
    · rw [heq] at hs
      cases hs

/-- Witness for C9: a text with no numbered-line matches produces an empty
fallback, and a produced step's id has the `step-<n>` shape. -/
theorem fallback_unreachable_witness :
    extractSimpleSteps "alpha beta gamma" = [] ∧
    ∃ n, ({ id := "step-1", title := "aa", category := "core" } :
      ExtractedStep).id = "step-" ++ Nat.repr n := by
  constructor
  · exact fallback_unreachable.1 "alpha beta gamma" (by decide)
  · exact (fallback_unreachable.2 "1. aa\n2. bb"
      { id := "step-1", title := "aa", category := "core" } (by decide)).1

/-- C6: the extractor tries the three pattern families in a fixed priority
order and uses exclusively the first family with at least one match (no
merging); every match of that family in document order becomes one step with
id `step-<n>` numbered sequentially from 1, so the ids of every result are
`step-1, step-2, …` in source-text order and are pairwise distinct. -/
theorem extract_cascade_and_ids :
    (∀ text : String,
      (execP1 text ≠ [] → extractLearningSteps text = buildSteps 0 (execP1 text)) ∧
      (execP1 text = [] → execP2 text ≠ [] →
        extractLearningSteps text = buildSteps 0 (execP2 text)) ∧
      (execP1 text = [] → execP2 text = [] → execP3 text ≠ [] →
        extractLearningSteps text = buildSteps 0 (execP3 text)))
    ∧ (∀ (text : String) (i : Nat) (h : i < (extractLearningSteps text).length),
        ((extractLearningSteps text).get ⟨i, h⟩).id = "step-" ++ Nat.repr (i + 1))
    ∧ (∀ text : String, ((extractLearningSteps text).map (fun s => s.id)).Nodup) := by
  have hids : ∀ text : String, (extractLearningSteps text).map (fun s => s.id)
      = (List.range (extractLearningSteps text).length).map
          (fun j => "step-" ++ Nat.repr (j + 1)) := by
    intro text
    rcases extract_eq_cascade_or_nil text with heq | heq
    · obtain ⟨ms, hms⟩ := cascade_shape text
      rw [heq, hms, buildSteps_ids, buildSteps_length]
      refine List.map_congr_left fun j _ => ?_
      have : 0 + j + 1 = j + 1 := by omega
      rw [this]
    · rw [heq]
      rfl
  refine ⟨?_, ?_, ?_⟩
  · intro text
    refine ⟨fun h1 => ?_, fun h1 h2 => ?_, fun h1 h2 h3 => ?_⟩
    · rw [extract_eq_cascade (by rw [cascade_eq_s1 h1, ne_eq, buildSteps_eq_nil_iff]; exact h1),
        cascade_eq_s1 h1]
    · rw [extract_eq_cascade (by rw [cascade_eq_s2 h1 h2, ne_eq, buildSteps_eq_nil_iff]; exact h2),
        cascade_eq_s2 h1 h2]
    · rw [extract_eq_cascade (by rw [cascade_eq_s3 h1 h2, ne_eq, buildSteps_eq_nil_iff]; exact h3),
        cascade_eq_s3 h1 h2]
  · intro text i h
    have h1 : ((extractLearningSteps text).map (fun s => s.id))[i]?
        = some (((extractLearningSteps text).get ⟨i, h⟩).id) := by
      rw [List.getElem?_map, List.getElem?_eq_getElem h]
      rfl
    rw [hids text, List.getElem?_map, List.getElem?_range (by simpa using h)] at h1
    simp only [Option.map_some'] at h1
    exact (Option.some.inj h1).symm
  · intro text
    rw [hids text]
    refine List.Nodup.map ?_ (List.nodup_range _)
    intro a b hab
    have := stepId_inj hab
    omega

/-- Witness for C6: a plain numbered list is handled by the second family
(the first family has no match). -/
theorem extract_cascade_and_ids_witness :
    extractLearningSteps "1. compile\n2. test\n3. ship" =
      buildSteps 0 (execP2 "1. compile\n2. test\n3. ship") :=
  (extract_cascade_and_ids.1 "1. compile\n2. test\n3. ship").2.1
    (by decide) (by decide)

/-- C7: categories are assigned per title by case-insensitive substring
search with precedence prerequisite over practice over advanced, defaulting
to core; and the scenario text extracts to exactly the three claimed steps
with categories core, core, practice. -/
theorem categorization_spec :
    (∀ title : String,
      (titleHasAny title ["prerequisite", "before", "foundation"] = true →
        determineCategoryFromTitle title = "prerequisite") ∧
      (titleHasAny title ["prerequisite", "before", "foundation"] = false →
        titleHasAny title ["practice", "project", "exercise"] = true →
        determineCategoryFromTitle title = "practice") ∧
      (titleHasAny title ["prerequisite", "before", "foundation"] = false →
        titleHasAny title ["practice", "project", "exercise"] = false →
        titleHasAny title ["advanced", "expert", "complex"] = true →
        determineCategoryFromTitle title = "advanced") ∧
      (titleHasAny title ["prerequisite", "before", "foundation"] = false →
        titleHasAny title ["practice", "project", "exercise"] = false →
        titleHasAny title ["advanced", "expert", "complex"] = false →
        determineCategoryFromTitle title = "core"))
    ∧ extractLearningSteps "1. Learn variables\n2. Learn loops\n3. Build a project" =
      [{ id := "step-1", title := "Learn variables", category := "core" },
       { id := "step-2", title := "Learn loops", category := "core" },
       { id := "step-3", title := "Build a project", category := "practice" }] := by
  constructor
  · intro title
    unfold titleHasAny determineCategoryFromTitle
    dsimp only
    simp only [List.any_cons, List.any_nil, Bool.or_false, Bool.or_assoc]
    refine ⟨fun h1 => ?_, fun h1 h2 => ?_, fun h1 h2 h3 => ?_, fun h1 h2 h3 => ?_⟩
    · rw [if_pos h1]
    · rw [if_neg (by simp [h1]), if_pos h2]
    · rw [if_neg (by simp [h1]), if_neg (by simp [h2]), if_pos h3]
    · rw [if_neg (by simp [h1]), if_neg (by simp [h2]), if_neg (by simp [h3])]
  · rfl

/-- Witness for C7: a title containing "project" but none of the
prerequisite keywords is categorised as practice. -/
theorem categorization_spec_witness :
    determineCategoryFromTitle "Build a project" = "practice" :=
  (categorization_spec.1 "Build a project").2.1 (by decide) (by decide)

end TechStack
